import Mathlib

/-!
Shallow embedding of the report-pipeline core of the FYP_dev repository
(report pipeline state machine and chapter/task decomposition engine).

Modelling conventions used throughout this file:
* Python strings are modelled as `List Char`; `str.split`, `str.replace`,
  `str.strip`, `in` and slicing are re-implemented with the same greedy
  leftmost non-overlapping semantics as CPython.
* MongoDB collections are modelled as Lean lists of records; `delete_many`
  becomes `List.filter`, `insert_one` an append, `find_one` a `List.find?`
  (with an explicit maximum computation where the source sorts descending
  and takes the first document).
* Opaque ObjectId strings are modelled as `Nat` identifiers.
* `datetime` fields (`created_at`, `updated_at`, `started_at`, ...) carry no
  logic in any of the verified routines and are omitted from the records.
-/

namespace FYPDev

/-- Python whitespace characters accepted by `str.strip()` with no argument. -/
def isPySpace (c : Char) : Bool :=
  c = ' ' || c = '\t' || c = '\n' || c = '\r' || c = '\x0b' || c = '\x0c'

/-- Model of Python `str.strip()`: drop whitespace from both ends. -/
def pyStrip (s : List Char) : List Char :=
  ((s.dropWhile isPySpace).reverse.dropWhile isPySpace).reverse

/-- The top-level chapter delimiter `"\n## "` that `split_outline_by_chapters`
(src/api/api_write_report_plan.py line 60) passes to `str.split`. -/
def delimL : List Char := ['\n', '#', '#', ' ']

/-- The heading marker `"## "` removed from section titles
(src/api/api_write_report_plan.py line 67). -/
def hashMark : List Char := ['#', '#', ' ']

/-- Fuel-indexed core of Python `str.split(sep)` for a non-empty separator:
greedy leftmost non-overlapping scan.  The fuel bounds the scanned length;
`splitOnL` always supplies enough fuel, and the fuel only makes the
recursion structural so that concrete inputs evaluate by `decide`/`rfl`. -/
def splitGo (sep : List Char) : Nat → List Char → List (List Char)
  | _, [] => [[]]
  | 0, s => [s]
  | fuel + 1, c :: rest =>
    if sep.isPrefixOf (c :: rest) then
      [] :: splitGo sep fuel (List.drop (sep.length - 1) rest)
    else
      match splitGo sep fuel rest with
      | [] => [[c]]
      | h :: t => (c :: h) :: t

/-- Python `s.split(sep)` for a non-empty separator `sep`. -/
def splitOnL (sep s : List Char) : List (List Char) :=
  splitGo sep s.length s

/-- Boolean substring test, Python's `sep in s`. -/
def containsSub (sep : List Char) : List Char → Bool
  | [] => sep.isEmpty
  | c :: rest => sep.isPrefixOf (c :: rest) || containsSub sep rest

/-- Fuel-indexed core of Python `s.replace(pat, "")` for a non-empty
pattern: greedy leftmost non-overlapping removal. -/
def removeGo (pat : List Char) : Nat → List Char → List Char
  | _, [] => []
  | 0, s => s
  | fuel + 1, c :: rest =>
    if pat.isPrefixOf (c :: rest) then
      removeGo pat fuel (List.drop (pat.length - 1) rest)
    else
      c :: removeGo pat fuel rest

/-- Python `s.replace(pat, "")` for a non-empty pattern. -/
def removeAll (pat s : List Char) : List Char :=
  removeGo pat s.length s

/-- Python `item.split("\n")[0]`: the text before the first newline
(the whole string when it has no newline). -/
def firstLine (s : List Char) : List Char :=
  s.takeWhile (fun c => c ≠ '\n')

/-- Joins segments with a separator; `joinSep sep (splitOnL sep s) = s`.
Used to state that the splitter's chapters tile the input exactly, with
one consumed delimiter between consecutive chapters. -/
def joinSep (sep : List Char) : List (List Char) → List Char
  | [] => []
  | [x] => x
  | x :: y :: t => x ++ sep ++ joinSep sep (y :: t)

/-- One chapter produced by `split_outline_by_chapters`
(src/api/api_write_report_plan.py lines 57-74): the dict
`{"index": .., "content": .., "section_title": ..}`. -/
structure ChapterSplit where
  index : Nat
  content : List Char
  section_title : List Char

/-- Builds one chapter dict exactly as the loop body of
`split_outline_by_chapters` does: `title = item.split("\n")[0]`, then
`title.replace("\n## ", "")`, then `title.replace("## ", "")`. -/
def mkChapter (i : Nat) (item : List Char) : ChapterSplit :=
  { index := i
    content := item
    section_title := removeAll hashMark (removeAll delimL (firstLine item)) }

/-- Python `enumerate(array, 1)` mapped through the loop body. -/
def chaptersFrom (i : Nat) : List (List Char) → List ChapterSplit
  | [] => []
  | item :: rest => mkChapter i item :: chaptersFrom (i + 1) rest

/-- `split_outline_by_chapters` (src/api/api_write_report_plan.py lines
57-74), the splitter actually invoked by the `/split/{report_id}` route:
`array = content.split("\n## ")`, then each item becomes a chapter whose
index is its 1-based position, whose content is the item verbatim, and
whose section title is the item's first line with `"\n## "` and `"## "`
removed. -/
def split_outline_by_chapters (content : List Char) : List ChapterSplit :=
  chaptersFrom 1 (splitOnL delimL content)

/-! ## JSON values and a parser modelling Python `json.loads`
(used by `extract_serp_queries_from_response`,
src/api/api_write_report_serp.py lines 486-544).

Modelling notes: JSON numbers are modelled without fractional/exponent
parts and string escapes without `\uXXXX` (none of the verified inputs
exercise these); everything else follows `json.loads`: whitespace
skipping, `null`/`true`/`false` literals, strings, arrays, objects with
string keys, and full-input consumption. -/

/-- JSON value, the result type of the modelled `json.loads`. -/
inductive JsonVal where
  | null : JsonVal
  | bool : Bool → JsonVal
  | num : Int → JsonVal
  | str : List Char → JsonVal
  | arr : List JsonVal → JsonVal
  | obj : List (List Char × JsonVal) → JsonVal

/-- JSON whitespace accepted between tokens by `json.loads`. -/
def jsonWs (c : Char) : Bool :=
  c = ' ' || c = '\n' || c = '\t' || c = '\r'

/-- Skip JSON whitespace. -/
def skipWs (s : List Char) : List Char := s.dropWhile jsonWs

/-- Translation of the common JSON string escapes. -/
def escChar (c : Char) : Char :=
  if c = 'n' then '\n' else if c = 't' then '\t' else if c = 'r' then '\r' else c

/-- Parses the body of a JSON string after the opening quote, returning the
decoded characters and the remainder after the closing quote. -/
def parseStringBody : List Char → Option (List Char × List Char)
  | [] => none
  | '"' :: rest => some ([], rest)
  | '\\' :: e :: rest =>
    (parseStringBody rest).map (fun p => (escChar e :: p.1, p.2))
  | c :: rest => (parseStringBody rest).map (fun p => (c :: p.1, p.2))

/-- Numeric value of a digit list. -/
def digitsVal (ds : List Char) : Nat :=
  ds.foldl (fun a c => a * 10 + (c.toNat - '0'.toNat)) 0

/-- Parses a JSON integer (optional minus sign then digits). -/
def parseNumber (s : List Char) : Option (Int × List Char) :=
  match s with
  | '-' :: rest =>
    let ds := rest.takeWhile Char.isDigit
    if ds.isEmpty then none
    else some (-(digitsVal ds : Int), rest.drop ds.length)
  | _ =>
    let ds := s.takeWhile Char.isDigit
    if ds.isEmpty then none
    else some ((digitsVal ds : Int), s.drop ds.length)

/-- Intermediate result of the fuelled JSON parser: a single value, the
items of an array, or the fields of an object. -/
inductive PRes where
  | val : JsonVal → PRes
  | items : List JsonVal → PRes
  | fields : List (List Char × JsonVal) → PRes

/-- Parsing mode of the fuelled JSON parser. -/
inductive PMode where
  | val : PMode
  | items : PMode
  | fields : PMode

/-- Fuelled recursive-descent JSON parser.  The three mutually recursive
procedures (value, array items, object fields) are folded into one
function over `PMode` so that the recursion is structural on the fuel and
concrete inputs evaluate inside `rfl`/`decide`. -/
def parseJ : Nat → PMode → List Char → Option (PRes × List Char)
  | 0, _, _ => none
  | fuel + 1, PMode.val, s0 =>
    let s := skipWs s0
    match s with
    | [] => none
    | '"' :: rest =>
      (parseStringBody rest).map (fun p => (PRes.val (JsonVal.str p.1), p.2))
    | '[' :: rest =>
      let r := skipWs rest
      (match r with
       | ']' :: r2 => some (PRes.val (JsonVal.arr []), r2)
       | _ =>
         match parseJ fuel PMode.items r with
         | some (PRes.items xs, r2) => some (PRes.val (JsonVal.arr xs), r2)
         | _ => none)
    | '{' :: rest =>
      let r := skipWs rest
      (match r with
       | '}' :: r2 => some (PRes.val (JsonVal.obj []), r2)
       | _ =>
         match parseJ fuel PMode.fields r with
         | some (PRes.fields fs, r2) => some (PRes.val (JsonVal.obj fs), r2)
         | _ => none)
    | _ :: _ =>
      if ("true".toList).isPrefixOf s then
        some (PRes.val (JsonVal.bool true), s.drop 4)
      else if ("false".toList).isPrefixOf s then
        some (PRes.val (JsonVal.bool false), s.drop 5)
      else if ("null".toList).isPrefixOf s then
        some (PRes.val JsonVal.null, s.drop 4)
      else
        (parseNumber s).map (fun p => (PRes.val (JsonVal.num p.1), p.2))
  | fuel + 1, PMode.items, s =>
    (match parseJ fuel PMode.val s with
     | some (PRes.val v, r0) =>
       let r := skipWs r0
       (match r with
        | ',' :: r2 =>
          (match parseJ fuel PMode.items r2 with
           | some (PRes.items xs, r3) => some (PRes.items (v :: xs), r3)
           | _ => none)
        | ']' :: r2 => some (PRes.items [v], r2)
        | _ => none)
     | _ => none)
  | fuel + 1, PMode.fields, s0 =>
    let s := skipWs s0
    (match s with
     | '"' :: rest =>
       (match parseStringBody rest with
        | some (key, r0) =>
          let r := skipWs r0
          (match r with
           | ':' :: r2 =>
             (match parseJ fuel PMode.val r2 with
              | some (PRes.val v, r3) =>
                let r4 := skipWs r3
                (match r4 with
                 | ',' :: r5 =>
                   (match parseJ fuel PMode.fields r5 with
                    | some (PRes.fields fs, r6) => some (PRes.fields ((key, v) :: fs), r6)
                    | _ => none)
                 | '}' :: r5 => some (PRes.fields [(key, v)], r5)
                 | _ => none)
              | _ => none)
           | _ => none)
        | none => none)
     | _ => none)

/-- Python `json.loads`: parse one JSON value and require the rest of the
input to be whitespace.  `none` models a raised `json.JSONDecodeError`. -/
def jsonLoads (s : List Char) : Option JsonVal :=
  match parseJ (4 * s.length + 8) PMode.val s with
  | some (PRes.val v, rest) => if skipWs rest = [] then some v else none
  | _ => none

/-- Lines 513-520 of src/api/api_write_report_serp.py: `content.strip()`,
drop a leading ` ```json ` (7 characters), then a leading ` ``` `
(3 characters), then a trailing ` ``` `, then `strip()` again. -/
def stripFences (content : List Char) : List Char :=
  let c := pyStrip content
  let c := if ("```json".toList).isPrefixOf c then c.drop 7 else c
  let c := if ("```".toList).isPrefixOf c then c.drop 3 else c
  let c := if ("```".toList).isSuffixOf c then c.take (c.length - 3) else c
  pyStrip c

/-- The first regex of `extract_serp_queries_from_response` (line 524),
`(?:json)?\s*(\[[\s\S]*?\])\s*` under `re.search`: since the prefix parts
can match the empty string, the leftmost match always captures group 1
starting at the first `[` of the text, and the lazy `[\s\S]*?` ends it at
the first `]` after that.  So the captured group is the segment from the
first `[` through the first following `]`, or no match if no such pair
exists. -/
def firstBracketShort (s : List Char) : Option (List Char) :=
  let rest := s.dropWhile (fun c => c ≠ '[')
  match rest with
  | [] => none
  | _ :: r =>
    if (r.dropWhile (fun c => c ≠ ']')).isEmpty then none
    else some ('[' :: (r.takeWhile (fun c => c ≠ ']') ++ [']']))

/-- The second regex (line 530), `(\[[\s\S]*\])` under `re.search`: the
leftmost match captures from the first `[` greedily through the last `]`
of the text, or no match if no `]` follows the first `[`. -/
def firstBracketLong (s : List Char) : Option (List Char) :=
  let rest := s.dropWhile (fun c => c ≠ '[')
  match rest with
  | [] => none
  | _ :: r =>
    let r2 := (r.reverse.dropWhile (fun c => c ≠ ']')).reverse
    if r2.isEmpty then none else some ('[' :: r2)

/-- `extract_serp_queries_from_response`
(src/api/api_write_report_serp.py lines 486-544) applied to the content
string already drawn from the LLM response envelope (lines 498-507 only
select `response["choices"][0]["message"]["content"]`; the early return
for empty content is kept).  A `none` from `jsonLoads` models the raised
`json.JSONDecodeError`, which the function's handler converts to the
empty list — so parse failure after a successful regex match does not
fall through to the next strategy, exactly as the `try/except` does. -/
def extract_serp_queries_from_response (content : List Char) : JsonVal :=
  if content.isEmpty then JsonVal.arr []
  else
    let c := stripFences content
    match firstBracketShort c with
    | some js => (jsonLoads js).getD (JsonVal.arr [])
    | none =>
      match firstBracketLong c with
      | some js => (jsonLoads js).getD (JsonVal.arr [])
      | none => (jsonLoads c).getD (JsonVal.arr [])

/-! ## Report progress recomputation
(`ReportService._update_overall_progress`,
src/services/report_service.py lines 222-288). -/

/-- Step status string of a `StepStatus` document
(src/models/mongo_models.py lines 27-35). -/
inductive StepSt where
  | pending : StepSt
  | processing : StepSt
  | completed : StepSt
  | failed : StepSt
  deriving DecidableEq

/-- One step's state (src/models/mongo_models.py `StepStatus`); the
timestamp / result / error fields carry no logic in the progress
recomputation and are omitted. -/
structure StepStatus where
  completed : Bool
  status : StepSt

/-- The per-step states of a report (src/models/mongo_models.py
`ReportSteps`). -/
structure ReportSteps where
  ask_questions : StepStatus
  plan : StepStatus
  serp : StepStatus
  search : StepStatus
  search_summary : StepStatus
  final_report : StepStatus
  summary_generation : StepStatus

/-- Overall report status string. -/
inductive RStat where
  | created : RStat
  | processing : RStat
  | completed : RStat
  | failed : RStat
  deriving DecidableEq

/-- The fields of a `reports` document read or written by
`_update_overall_progress` (src/models/mongo_models.py `MongoReport`).
`template` is the template-id string (empty = no template);
`progress_percentage`, a Python float computed as an exact quotient of
small integers, is modelled as a rational. -/
structure MongoReport where
  steps : ReportSteps
  template : List Char
  completed_steps : Nat
  total_steps : Nat
  progress_percentage : ℚ
  status : RStat

/-- Contribution of one tracked step to `completed_count` (lines 247-254):
nothing if not completed, 2 if the report has a template and the step is
"plan", else 1. -/
def stepContribution (template : List Char) (isPlan : Bool) (st : StepStatus) : Nat :=
  if st.completed then (if !template.isEmpty && isPlan then 2 else 1) else 0

/-- `ReportService._update_overall_progress`
(src/services/report_service.py lines 222-288): the tracked steps are
`[ask_questions, plan, serp, final_report]` (search and search_summary
are commented out as sub-steps of serp), `completed_count` starts at 1,
`total_count = 5`, `progress = completed_count / total_count * 100`, and
the overall status is completed / processing / created by count, with
failure of any tracked step taking priority. -/
def _update_overall_progress (r : MongoReport) : MongoReport :=
  let tracked : List (Bool × StepStatus) :=
    [(false, r.steps.ask_questions), (true, r.steps.plan),
     (false, r.steps.serp), (false, r.steps.final_report)]
  let completed_count :=
    tracked.foldl (fun acc p => acc + stepContribution r.template p.1 p.2) 1
  let total_count : Nat := 5
  let progress : ℚ := ((completed_count : ℚ) / (total_count : ℚ)) * 100
  let statusByCount : RStat :=
    if completed_count = total_count then RStat.completed
    else if 0 < completed_count then RStat.processing
    else RStat.created
  let overall : RStat :=
    if tracked.any (fun p => p.2.status = StepSt.failed) then RStat.failed
    else statusByCount
  { r with completed_steps := completed_count, total_steps := total_count,
           progress_percentage := progress, status := overall }

/-- The spec's progress algorithm, written from the spec's words (§4.1):
baseline 1, plus 1 per completed tracked step, except plan on a report
with a non-empty template id which adds 2.  Compared against the code's
`_update_overall_progress` in the theorems. -/
def specCompletedSteps (r : MongoReport) : Nat :=
  1 + (if r.steps.ask_questions.completed then 1 else 0)
    + (if r.steps.plan.completed then (if r.template ≠ [] then 2 else 1) else 0)
    + (if r.steps.serp.completed then 1 else 0)
    + (if r.steps.final_report.completed then 1 else 0)

/-! ## Search-result storage (`_store_search_results`,
src/api/api_write_report_search.py lines 34-117). -/

/-- One `search_results` document; of the stored fields only those read
back by the routine's own logic (`task_id`, `report_id`, `result_index`)
plus the identifying payload are modelled. -/
structure SearchResultRow where
  task_id : Nat
  report_id : Nat
  plan_id : Nat
  query : List Char
  result_index : Nat
  title : List Char
  deriving DecidableEq

/-- The maximum `result_index` in a list of rows: models
`find_one({"report_id": ...}, sort=[("result_index", -1)])` (lines 65-68),
which returns the document with the largest index, or `None` when the
filter matches nothing. -/
def maxResultIndex : List SearchResultRow → Option Nat
  | [] => none
  | r :: rest =>
    match maxResultIndex rest with
    | none => some r.result_index
    | some m => some (Nat.max r.result_index m)

/-- The insertion loop of `_store_search_results` (lines 85-110): the
`idx`-th raw result becomes a row with `result_index = start + idx`. -/
def resultsRows (task_id report_id plan_id : Nat) (query : List Char)
    (start : Nat) : List (List Char) → List SearchResultRow
  | [] => []
  | t :: rest =>
    { task_id := task_id, report_id := report_id, plan_id := plan_id,
      query := query, result_index := start, title := t }
      :: resultsRows task_id report_id plan_id query (start + 1) rest

/-- `_store_search_results` (src/api/api_write_report_search.py lines
34-117): first `delete_many({"task_id": task_id})` (line 61), then read
the maximum `result_index` of the report over the remaining rows (lines
65-71, `start_index = 0` if none else `max + 1`), then insert one row per
raw result with sequential indices.  Returns the new collection contents
and the stored count.  (Image validation/upload, lines 74-82, touches no
`result_index` logic and is not modelled.) -/
def _store_search_results (db : List SearchResultRow) (task_id report_id plan_id : Nat)
    (query : List Char) (results : List (List Char)) : List SearchResultRow × Nat :=
  let db1 := db.filter (fun r => r.task_id ≠ task_id)
  let start :=
    match maxResultIndex (db1.filter (fun r => r.report_id = report_id)) with
    | none => 0
    | some m => m + 1
  let newRows := resultsRows task_id report_id plan_id query start results
  (db1 ++ newRows, newRows.length)

/-! ## Final-report completion aggregation
(`check_and_update_final_report_completion`,
src/api/api_write_report_final.py lines 88-171) and the
`isFinalReportCompleted` reset in `get_report_introduction`
(lines 1297-1325). -/

/-- A `reports` document as read by the aggregator: only `_id` and
`isFinalReportCompleted` participate. -/
structure ReportDoc where
  id : Nat
  isFinalReportCompleted : Bool

/-- A `report_plan_split` document as read by the aggregator:
`chapter_index` may be absent (`doc.get("chapter_index")`). -/
structure SplitDoc where
  id : Nat
  report_id : Nat
  chapter_index : Option Nat

/-- The two collections touched by the aggregator. -/
structure FinalDB where
  reports : List ReportDoc
  splits : List SplitDoc

/-- `find_one({"_id": report_id})` on `reports`. -/
def findReport (st : FinalDB) (rid : Nat) : Option ReportDoc :=
  st.reports.find? (fun r => r.id = rid)

/-- The stored `isFinalReportCompleted` flag of a report (`False` when the
report does not exist, matching `existing_report.get(...)` falsiness). -/
def reportFlag (st : FinalDB) (rid : Nat) : Bool :=
  match findReport st rid with
  | some r => r.isFinalReportCompleted
  | none => false

/-- `update_one({"_id": rid}, {"$set": {"isFinalReportCompleted": v}})`:
a targeted single-field update; a missing report id modifies nothing. -/
def setFinalReportCompleted (st : FinalDB) (rid : Nat) (v : Bool) : FinalDB :=
  { st with reports := st.reports.map (fun r =>
      if r.id = rid then { r with isFinalReportCompleted := v } else r) }

/-- Python `max` over a non-empty list of naturals (line 122). -/
def pyMaxNat (l : List Nat) : Nat := l.foldl Nat.max 0

/-- `check_and_update_final_report_completion`
(src/api/api_write_report_final.py lines 88-171).  `lockAcquired` is the
boolean outcome of `lock.acquire(blocking=True, timeout=5)` on the
distributed lock keyed by the report id (lines 98-105); the environment
decides it.  When it is `false` the function logs and returns (line 104).
Otherwise: load the report's splits, bail out if none or if none carries
a `chapter_index`; compute the maximum chapter index; load the current
split by `_id` (a whole-collection lookup, line 125) and its index; if
the current index equals the maximum, re-read the report and skip when
`isFinalReportCompleted` is already set (lines 141-144), else set it to
`True` (lines 146-155).  The body is wrapped in `try/except` and always
returns normally, which the model reflects by being a total function. -/
def check_and_update_final_report_completion (lockAcquired : Bool) (st : FinalDB)
    (report_id split_id : Nat) : FinalDB :=
  if !lockAcquired then st
  else
    let split_docs := st.splits.filter (fun d => d.report_id = report_id)
    if split_docs.isEmpty then st
    else
      let idxs := split_docs.filterMap (fun d => d.chapter_index)
      if idxs.isEmpty then st
      else
        let maxIdx := pyMaxNat idxs
        match st.splits.find? (fun d => d.id = split_id) with
        | none => st
        | some cur =>
          match cur.chapter_index with
          | none => st
          | some curIdx =>
            if curIdx = maxIdx then
              match findReport st report_id with
              | some rep =>
                if rep.isFinalReportCompleted then st
                else setFinalReportCompleted st report_id true
              | none => setFinalReportCompleted st report_id true
            else st

/-- The write to the `reports` collection performed unconditionally at the
start of `get_report_introduction`
(src/api/api_write_report_final.py lines 1306-1325): the introduction
endpoint sets `isFinalReportCompleted` back to `False` for the report
before returning or generating the introduction text (which touches other
collections only). -/
def get_report_introduction_update (st : FinalDB) (report_id : Nat) : FinalDB :=
  setFinalReportCompleted st report_id false

/-! ## Plan-split persistence (`split_plan`,
src/api/api_write_report_plan.py lines 93-213, and
`StepRecordService.upsert_plan_split_record`,
src/services/step_record_service.py lines 108-139). -/

/-- One `report_plan_split` document (the generated `_id` and the
`response`/`chapters_count`/`created_at` payload fields, which no
verified routine reads back, are omitted). -/
structure PlanSplitRow where
  report_id : Nat
  template_id : Option Nat
  plan_id : Nat
  original_content : List Char
  only_key : Nat
  chapter_index : Option Nat
  section_title : List Char

/-- `StepRecordService.upsert_plan_split_record`
(src/services/step_record_service.py lines 108-139): when called with
`chapter_index == 1` it first deletes every `report_plan_split` row of
the report (lines 113-116), then inserts the new chapter row. -/
def upsert_plan_split_record (db : List PlanSplitRow) (report_id : Nat)
    (template_id : Option Nat) (plan_id : Nat) (original_content : List Char)
    (only_key : Nat) (chapter_index : Option Nat) (section_title : List Char) :
    List PlanSplitRow :=
  let db1 := if chapter_index = some 1
             then db.filter (fun r => r.report_id ≠ report_id)
             else db
  db1 ++ [{ report_id := report_id, template_id := template_id, plan_id := plan_id,
            original_content := original_content, only_key := only_key,
            chapter_index := chapter_index, section_title := section_title }]

/-- The `report_plan_split` document `split_plan` builds for one chapter
on the outline path (src/api/api_write_report_plan.py lines 166-181). -/
def planSplitRowOf (report_id plan_id only_key : Nat) (ch : ChapterSplit) :
    PlanSplitRow :=
  { report_id := report_id, template_id := none, plan_id := plan_id,
    original_content := ch.content, only_key := only_key,
    chapter_index := some ch.index, section_title := ch.section_title }

/-- The rows one run of the outline path of `split_plan` generates for a
plan text: one row per chapter of `split_outline_by_chapters`, tagged
with the run's `only_key` batch key. -/
def mkSplitRows (report_id plan_id only_key : Nat) (content : List Char) :
    List PlanSplitRow :=
  (split_outline_by_chapters content).map (planSplitRowOf report_id plan_id only_key)

/-- The effect of the `/split/{report_id}` route `split_plan`
(src/api/api_write_report_plan.py lines 93-213) on the
`report_plan_split` collection, non-template path: first
`delete_records_by_report_id(report_id, ['report_plan_split', ...])`
deletes the report's split rows (lines 126-130, via `delete_many` in
src/services/step_record_service.py lines 495-511), then every chapter of
`split_outline_by_chapters(plan_content)` is stored through
`upsert_plan_split_record` in order (lines 162-187).  The route's other
effects (step bookkeeping, `report_serp`/`serp_task` deletion) touch
other collections. -/
def split_plan (db : List PlanSplitRow) (report_id plan_id only_key : Nat)
    (plan_content : List Char) : List PlanSplitRow :=
  let db1 := db.filter (fun r => r.report_id ≠ report_id)
  (split_outline_by_chapters plan_content).foldl
    (fun acc ch =>
      upsert_plan_split_record acc report_id none plan_id ch.content only_key
        (some ch.index) ch.section_title)
    db1

/-! ## The search endpoint (`search`,
src/api/api_write_report_search.py lines 159-240) and
`MongoApiServiceManager.update_serp_task_search_state`
(src/services/mongo_api_service_manager.py lines 908-962). -/

/-- `search_state` values of a `serp_task` document. -/
inductive SearchState where
  | unprocessed : SearchState
  | searchCompleted : SearchState
  | searchFailed : SearchState
  | completed : SearchState
  | failed : SearchState
  deriving DecidableEq

/-- A `serp_task` document as used by the search endpoint. -/
structure SerpTaskRow where
  id : Nat
  report_id : Nat
  plan_id : Nat
  search_state : SearchState
  deriving DecidableEq

/-- The collections the search endpoint writes. -/
structure SearchServiceDB where
  serp_task : List SerpTaskRow
  search_results : List SearchResultRow

/-- `get_task_info` (src/services/task_service.py lines 15-47): look the
task up in `serp_task` by id; `none` models the task-missing failure
(surfaced in the source as an exception caught by the endpoint's generic
handler — the un-awaited coroutine at line 178 means the missing-task
check fails via the subscript `TypeError` rather than the dead `BizError`
branch, with the same observable effect: the endpoint's except-handler
runs). -/
def get_task_info (db : SearchServiceDB) (task_id : Nat) : Option SerpTaskRow :=
  db.serp_task.find? (fun t => t.id = task_id)

/-- `MongoApiServiceManager.update_serp_task_search_state`
(src/services/mongo_api_service_manager.py lines 908-962):
`update_one({"_id": task_id}, {"$set": {"search_state": s}})`; a missing
task id matches nothing and modifies nothing. -/
def update_serp_task_search_state (db : SearchServiceDB) (task_id : Nat)
    (s : SearchState) : SearchServiceDB :=
  { db with serp_task := db.serp_task.map (fun t =>
      if t.id = task_id then { t with search_state := s } else t) }

/-- The `search` endpoint (src/api/api_write_report_search.py lines
159-240).  `tavilyOutcome` is the outcome of the external
`tavily_service.search` call: `some results` on success, `none` when it
raises.  The returned boolean is `true` for `Result.success` and `false`
when the endpoint raises `HTTPException` out of one of its two except
branches (lines 230-240) — in both of those branches
`update_serp_task_search_state(task_id, "searchFailed")` runs before the
error is re-raised, which the model captures by returning the updated
state together with the failure flag.  (`_store_response_data`, which
writes an unrelated collection, is not modelled.) -/
def search (db : SearchServiceDB) (task_id : Nat) (query : List Char)
    (tavilyOutcome : Option (List (List Char))) : SearchServiceDB × Bool :=
  match get_task_info db task_id with
  | none => (update_serp_task_search_state db task_id SearchState.searchFailed, false)
  | some info =>
    match tavilyOutcome with
    | none => (update_serp_task_search_state db task_id SearchState.searchFailed, false)
    | some results =>
      let stored := _store_search_results db.search_results task_id info.report_id
        info.plan_id query results
      let db1 := { db with search_results := stored.1 }
      (update_serp_task_search_state db1 task_id SearchState.searchCompleted, true)

/-! ## Lemmas about the string primitives -/

theorem isPrefixOf_eq_append {sep l : List Char} (h : sep.isPrefixOf l = true) :
    l = sep ++ l.drop sep.length := by
  induction sep generalizing l with
  | nil => simp
  | cons a as ih =>
    cases l with
    | nil => simp [List.isPrefixOf] at h
    | cons b bs =>
      simp only [List.isPrefixOf, Bool.and_eq_true, beq_iff_eq] at h
      obtain ⟨rfl, h2⟩ := h
      simpa using ih h2

theorem isPrefixOf_append_right {p a : List Char} (b : List Char)
    (h : p.isPrefixOf a = true) : p.isPrefixOf (a ++ b) = true := by
  induction p generalizing a with
  | nil => simp [List.isPrefixOf]
  | cons x xs ih =>
    cases a with
    | nil => simp [List.isPrefixOf] at h
    | cons y ys =>
      simp only [List.isPrefixOf, Bool.and_eq_true, beq_iff_eq] at h
      simp only [List.cons_append, List.isPrefixOf, Bool.and_eq_true, beq_iff_eq]
      exact ⟨h.1, ih h.2⟩

theorem splitGo_ne_nil (sep : List Char) :
    ∀ (fuel : Nat) (s : List Char), splitGo sep fuel s ≠ [] := by
  intro fuel
  induction fuel with
  | zero =>
    intro s
    cases s <;> simp [splitGo]
  | succ fuel ih =>
    intro s
    cases s with
    | nil => simp [splitGo]
    | cons c rest =>
      simp only [splitGo]
      by_cases hsp : sep.isPrefixOf (c :: rest) = true
      · simp [hsp]
      · simp only [Bool.not_eq_true] at hsp
        simp only [hsp, Bool.false_eq_true, if_false]
        cases hrec : splitGo sep fuel rest <;> simp

theorem splitGo_of_not_contains (sep : List Char) :
    ∀ (fuel : Nat) (s : List Char), containsSub sep s = false →
      splitGo sep fuel s = [s] := by
  intro fuel
  induction fuel with
  | zero =>
    intro s _
    cases s <;> rfl
  | succ fuel ih =>
    intro s h
    cases s with
    | nil => rfl
    | cons c rest =>
      simp only [containsSub, Bool.or_eq_false_iff] at h
      simp only [splitGo, h.1, Bool.false_eq_true, if_false, ih rest h.2]

theorem joinSep_cons (sep x : List Char) {l : List (List Char)} (h : l ≠ []) :
    joinSep sep (x :: l) = x ++ sep ++ joinSep sep l := by
  cases l with
  | nil => exact absurd rfl h
  | cons y t => rfl

theorem joinSep_splitGo (sep : List Char) (hsep : sep ≠ []) :
    ∀ (fuel : Nat) (s : List Char), s.length ≤ fuel →
      joinSep sep (splitGo sep fuel s) = s := by
  intro fuel
  induction fuel with
  | zero =>
    intro s hlen
    have : s = [] := List.length_eq_zero.mp (Nat.le_zero.mp hlen)
    subst this
    rfl
  | succ fuel ih =>
    intro s hlen
    cases s with
    | nil => rfl
    | cons c rest =>
      simp only [List.length_cons, Nat.succ_le_succ_iff] at hlen
      simp only [splitGo]
      by_cases hsp : sep.isPrefixOf (c :: rest) = true
      · simp only [hsp, if_true]
        have hne := splitGo_ne_nil sep fuel (List.drop (sep.length - 1) rest)
        rw [joinSep_cons sep [] hne, ih _ (le_trans (by simp [List.length_drop]) hlen)]
        have hdec := isPrefixOf_eq_append hsp
        obtain ⟨d, ds, rfl⟩ := List.exists_cons_of_ne_nil hsep
        simpa using hdec.symm
      · simp only [Bool.not_eq_true] at hsp
        simp only [hsp, Bool.false_eq_true, if_false]
        cases hrec : splitGo sep fuel rest with
        | nil => exact absurd hrec (splitGo_ne_nil sep fuel rest)
        | cons h t =>
          have hjoin : joinSep sep (h :: t) = rest := by
            rw [← hrec]; exact ih rest hlen
          cases t with
          | nil =>
            simp only [joinSep] at hjoin
            simp [joinSep, hjoin]
          | cons y t2 =>
            rw [joinSep_cons sep h (by simp)] at hjoin
            rw [joinSep_cons sep (c :: h) (by simp)]
            simp only [List.cons_append, List.append_assoc] at hjoin ⊢
            rw [hjoin]

theorem splitGo_contains_structure (sep : List Char) (hsep : sep ≠ []) :
    ∀ (fuel : Nat) (s : List Char), s.length ≤ fuel → containsSub sep s = true →
      ∃ hd tl, splitGo sep fuel s = hd :: tl ∧ tl ≠ [] ∧ containsSub sep hd = false := by
  intro fuel
  induction fuel with
  | zero =>
    intro s hlen hc
    have : s = [] := List.length_eq_zero.mp (Nat.le_zero.mp hlen)
    subst this
    simp [containsSub, List.isEmpty_iff, hsep] at hc
  | succ fuel ih =>
    intro s hlen hc
    cases s with
    | nil => simp [containsSub, List.isEmpty_iff, hsep] at hc
    | cons c rest =>
      simp only [List.length_cons, Nat.succ_le_succ_iff] at hlen
      by_cases hsp : sep.isPrefixOf (c :: rest) = true
      · refine ⟨[], splitGo sep fuel (List.drop (sep.length - 1) rest),
          by simp [splitGo, hsp], splitGo_ne_nil sep fuel _, ?_⟩
        simp [containsSub, List.isEmpty_iff, hsep]
      · simp only [Bool.not_eq_true] at hsp
        have hcr : containsSub sep rest = true := by
          simpa [containsSub, hsp] using hc
        obtain ⟨hd, tl, heq, htl, hhd⟩ := ih rest hlen hcr
        refine ⟨c :: hd, tl, ?_, htl, ?_⟩
        · simp [splitGo, hsp, heq]
        · have hjoin : joinSep sep (hd :: tl) = rest := by
            rw [← heq]; exact joinSep_splitGo sep hsep fuel rest hlen
          rw [joinSep_cons sep hd htl] at hjoin
          simp only [containsSub, Bool.or_eq_false_iff]
          refine ⟨?_, hhd⟩
          by_contra hcontra
          simp only [Bool.not_eq_false] at hcontra
          have : sep.isPrefixOf (c :: rest) = true := by
            have : c :: rest = (c :: hd) ++ (sep ++ joinSep sep tl) := by
              simp [← hjoin]
            rw [this]
            exact isPrefixOf_append_right _ hcontra
          simp [this] at hsp

theorem chaptersFrom_length (i : Nat) (l : List (List Char)) :
    (chaptersFrom i l).length = l.length := by
  induction l generalizing i with
  | nil => rfl
  | cons x t ih => simp [chaptersFrom, ih]

theorem chaptersFrom_map_content (i : Nat) (l : List (List Char)) :
    (chaptersFrom i l).map (fun c => c.content) = l := by
  induction l generalizing i with
  | nil => rfl
  | cons x t ih => simp [chaptersFrom, mkChapter, ih]

theorem chaptersFrom_index_ge (i : Nat) (l : List (List Char)) :
    ∀ ch ∈ chaptersFrom i l, i ≤ ch.index := by
  induction l generalizing i with
  | nil => intro ch h; simp [chaptersFrom] at h
  | cons x t ih =>
    intro ch h
    simp only [chaptersFrom, List.mem_cons] at h
    rcases h with rfl | h
    · exact le_refl _
    · exact le_trans (Nat.le_succ i) (ih (i + 1) ch h)

theorem chaptersFrom_title (i : Nat) (l : List (List Char)) :
    ∀ ch ∈ chaptersFrom i l,
      ch.section_title = removeAll hashMark (removeAll delimL (firstLine ch.content)) := by
  induction l generalizing i with
  | nil => intro ch h; simp [chaptersFrom] at h
  | cons x t ih =>
    intro ch h
    simp only [chaptersFrom, List.mem_cons] at h
    rcases h with rfl | h
    · rfl
    · exact ih (i + 1) ch h

theorem removeGo_delimL_no_newline :
    ∀ (fuel : Nat) (t : List Char), (∀ a ∈ t, a ≠ '\n') →
      removeGo delimL fuel t = t := by
  intro fuel
  induction fuel with
  | zero =>
    intro t _
    cases t <;> rfl
  | succ fuel ih =>
    intro t h
    cases t with
    | nil => rfl
    | cons c rest =>
      have hc : c ≠ '\n' := h c (List.mem_cons_self c rest)
      have hsp : delimL.isPrefixOf (c :: rest) = false := by
        simp only [delimL, List.isPrefixOf, Bool.and_eq_false_iff, beq_eq_false_iff_ne]
        exact Or.inl fun hcc => hc hcc.symm
      simp only [removeGo, hsp, Bool.false_eq_true, if_false]
      rw [ih rest (fun a ha => h a (List.mem_cons_of_mem c ha))]

theorem firstLine_no_newline (s : List Char) : ∀ a ∈ firstLine s, a ≠ '\n' := by
  intro a ha
  have := List.mem_takeWhile_imp ha
  simpa using this

theorem removeAll_delimL_firstLine (s : List Char) :
    removeAll delimL (firstLine s) = firstLine s :=
  removeGo_delimL_no_newline _ _ (firstLine_no_newline s)

theorem chaptersFrom_title_strip (i : Nat) (l : List (List Char)) :
    ∀ ch ∈ chaptersFrom i l,
      ch.section_title = removeAll hashMark (firstLine ch.content) := by
  intro ch h
  rw [chaptersFrom_title i l ch h, removeAll_delimL_firstLine]

theorem hashMark_prefix_of_decomp {hd r : List Char}
    (h : hashMark.isPrefixOf (hd ++ delimL ++ r) = true) :
    hashMark.isPrefixOf hd = true := by
  match hd with
  | [] => simp [hashMark, delimL, List.isPrefixOf] at h
  | [a] =>
    simp only [hashMark, delimL, List.cons_append, List.nil_append, List.isPrefixOf,
      Bool.and_eq_true, beq_iff_eq] at h
    exact absurd h.2.1.symm (by decide)
  | [a, b] =>
    simp only [hashMark, delimL, List.cons_append, List.nil_append, List.isPrefixOf,
      Bool.and_eq_true, beq_iff_eq] at h
    exact absurd h.2.2.1.symm (by decide)
  | a :: b :: c :: hd2 =>
    simp only [hashMark, delimL, List.cons_append, List.isPrefixOf,
      Bool.and_eq_true, beq_iff_eq] at h ⊢
    exact ⟨h.1, h.2.1, h.2.2.1, trivial⟩

theorem le_maxResultIndex {rows : List SearchResultRow} {r : SearchResultRow}
    (h : r ∈ rows) :
    ∃ m, maxResultIndex rows = some m ∧ r.result_index ≤ m := by
  induction rows with
  | nil => simp at h
  | cons x t ih =>
    rcases List.mem_cons.mp h with rfl | h
    · cases hm : maxResultIndex t with
      | none => exact ⟨r.result_index, by simp [maxResultIndex, hm], le_refl _⟩
      | some m =>
        exact ⟨Nat.max r.result_index m, by simp [maxResultIndex, hm],
          Nat.le_max_left _ _⟩
    · obtain ⟨m, hm, hle⟩ := ih h
      exact ⟨Nat.max x.result_index m, by simp [maxResultIndex, hm],
        le_trans hle (Nat.le_max_right _ _)⟩

theorem resultsRows_start_le (task_id report_id plan_id : Nat) (query : List Char) :
    ∀ (l : List (List Char)) (start : Nat),
      ∀ row ∈ resultsRows task_id report_id plan_id query start l,
        start ≤ row.result_index := by
  intro l
  induction l with
  | nil => intro start row h; simp [resultsRows] at h
  | cons x t ih =>
    intro start row h
    simp only [resultsRows, List.mem_cons] at h
    rcases h with rfl | h
    · exact le_refl _
    · exact le_trans (Nat.le_succ start) (ih (start + 1) row h)

theorem reportFlag_setTrue (st : FinalDB) (rid x : Nat)
    (h : reportFlag st x = true) :
    reportFlag (setFinalReportCompleted st rid true) x = true := by
  unfold reportFlag findReport at h ⊢
  obtain ⟨r0, hfind, hflag⟩ : ∃ r0,
      List.find? (fun r => decide (r.id = x)) st.reports = some r0 ∧
        r0.isFinalReportCompleted = true := by
    cases hfind : List.find? (fun r => decide (r.id = x)) st.reports with
    | none => rw [hfind] at h; exact Bool.noConfusion h
    | some r0 => rw [hfind] at h; exact ⟨r0, rfl, h⟩
  unfold setFinalReportCompleted
  simp only [List.find?_map]
  have hfun : (fun r : ReportDoc =>
      decide ((if r.id = rid then { r with isFinalReportCompleted := true } else r).id = x))
      = fun r : ReportDoc => decide (r.id = x) := by
    funext r
    by_cases hid : r.id = rid <;> simp [hid]
  rw [show ((fun r : ReportDoc => decide (r.id = x)) ∘
      (fun r : ReportDoc =>
        if r.id = rid then { r with isFinalReportCompleted := true } else r)) =
      fun r : ReportDoc => decide (r.id = x) from hfun]
  rw [hfind]
  by_cases hid : r0.id = rid <;> simp [hid, hflag]

theorem check_result_cases (lockAcquired : Bool) (st : FinalDB)
    (report_id split_id : Nat) :
    check_and_update_final_report_completion lockAcquired st report_id split_id = st ∨
    check_and_update_final_report_completion lockAcquired st report_id split_id
      = setFinalReportCompleted st report_id true := by
  unfold check_and_update_final_report_completion
  cases lockAcquired with
  | false => exact Or.inl rfl
  | true =>
    simp only [Bool.not_true, Bool.false_eq_true, if_false]
    repeat' split
    all_goals first
      | exact Or.inl rfl
      | exact Or.inr rfl

/-! ## Claim C5 (plan-splitter fallback for delimiter-free outlines) -/

/-- Claim C5, counterexample: the claim states that splitting a
delimiter-free outline yields one chapter whose section title is
"overall content".  On the splitter the route actually uses
(`split_outline_by_chapters`), the section title of the single chapter is
the text's first line with `"## "` markers removed, never
"overall content": at the concrete delimiter-free input "hello world"
the produced title list is `["hello world"]`, not `["overall content"]`.
(The "overall content" / `"整体内容"` fallback exists only in the unused
variant `split_outline_by_chapters1`, and even there with chapter index
0 and stripped content.) -/
theorem c5_counterexample :
    ¬ ((split_outline_by_chapters ("hello world".toList)).map
        (fun c => c.section_title) = ["overall content".toList]) := by
  decide

/-- Claim C5, amended: splitting an outline text containing no top-level
section delimiter `"\n## "` yields exactly one chapter with index 1 and
the full input text as its content — but its section title is the input's
first line with `"## "` markers removed, not "overall content". -/
theorem c5_single_chapter (content : List Char)
    (h : containsSub delimL content = false) :
    split_outline_by_chapters content =
      [{ index := 1, content := content,
         section_title := removeAll hashMark (firstLine content) }] := by
  unfold split_outline_by_chapters splitOnL
  rw [splitGo_of_not_contains delimL content.length content h]
  show [mkChapter 1 content] = _
  rw [mkChapter, removeAll_delimL_firstLine]

/-- Claim C5, witness: the amended theorem evaluated at the concrete
delimiter-free input "hello world\nmore". -/
theorem c5_witness :
    containsSub delimL ("hello world\nmore".toList) = false ∧
      split_outline_by_chapters ("hello world\nmore".toList) =
        [{ index := 1, content := "hello world\nmore".toList,
           section_title := removeAll hashMark (firstLine ("hello world\nmore".toList)) }] :=
  ⟨by decide, c5_single_chapter _ (by decide)⟩

/-! ## Claim C10 (positional asymmetry of the splitter) -/

/-- Claim C10: for every outline containing at least one `"\n## "`
delimiter the splitter's output is positionally asymmetric.  Stated as:
there are a first chapter `c1`, remaining chapters `others` (non-empty,
so at least two chapters) and a remainder `rest` such that
(1) `c1.content` is exactly the text before the first delimiter
    (`content = c1.content ++ "\n## " ++ rest` with no delimiter inside
    `c1.content`), so a leading `"## "` of the input is retained in
    chapter 1's content (conjunct (2) makes this explicit);
(3) the whole input is recovered by re-inserting one `"\n## "` between
    consecutive chapter contents — i.e. the `"## "` consumed by the split
    is *not* re-attached to chapters 2..N, whose content therefore starts
    with the bare title line;
(4) uniformly for every chapter, the section title is the first line of
    its content with the `"## "` marker removed. -/
theorem c10_split_asymmetry (content : List Char)
    (h : containsSub delimL content = true) :
    ∃ c1 others rest,
      split_outline_by_chapters content = c1 :: others ∧ others ≠ [] ∧
      (content = c1.content ++ delimL ++ rest ∧
        containsSub delimL c1.content = false) ∧
      (hashMark.isPrefixOf content = true →
        hashMark.isPrefixOf c1.content = true) ∧
      content = joinSep delimL ((c1 :: others).map (fun c => c.content)) ∧
      (∀ ch ∈ c1 :: others,
        ch.section_title = removeAll hashMark (firstLine ch.content)) := by
  have hsep : delimL ≠ [] := by decide
  obtain ⟨hd, tl, heq, htl, hhd⟩ :=
    splitGo_contains_structure delimL hsep content.length content (le_refl _) h
  have hjoin : joinSep delimL (hd :: tl) = content := by
    rw [← heq]
    exact joinSep_splitGo delimL hsep content.length content (le_refl _)
  have hsplit : split_outline_by_chapters content
      = mkChapter 1 hd :: chaptersFrom 2 tl := by
    unfold split_outline_by_chapters splitOnL
    rw [heq]
    rfl
  have hcontent : (mkChapter 1 hd).content = hd := rfl
  have hdecomp : content = hd ++ delimL ++ joinSep delimL tl := by
    rw [← hjoin, joinSep_cons delimL hd htl]
  refine ⟨mkChapter 1 hd, chaptersFrom 2 tl, joinSep delimL tl, hsplit, ?_, ?_, ?_, ?_, ?_⟩
  · intro hnil
    have := chaptersFrom_length 2 tl
    rw [hnil] at this
    exact htl (List.length_eq_zero.mp this.symm)
  · exact ⟨by simpa [hcontent] using hdecomp, by simpa [hcontent] using hhd⟩
  · intro hpre
    rw [hcontent]
    exact hashMark_prefix_of_decomp (hdecomp ▸ hpre)
  · rw [List.map_cons, hcontent, chaptersFrom_map_content, hjoin]
  · intro ch hch
    rcases List.mem_cons.mp hch with rfl | hch
    · have : mkChapter 1 hd ∈ chaptersFrom 1 (hd :: tl) := by
        simp [chaptersFrom]
      exact chaptersFrom_title_strip 1 (hd :: tl) _ this
    · exact chaptersFrom_title_strip 2 tl ch hch

/-! ## Claim C2 (progress recomputation) -/

/-- Claim C2, counterexample: the claim states that the stored
`total_steps` equals 4; `_update_overall_progress` stores
`total_count = 5` (src/services/report_service.py line 233), so at any
concrete report — here one with every step pending and no template — the
stored `total_steps` is not 4. -/
theorem c2_counterexample :
    (_update_overall_progress
      { steps := ⟨⟨false, StepSt.pending⟩, ⟨false, StepSt.pending⟩,
          ⟨false, StepSt.pending⟩, ⟨false, StepSt.pending⟩,
          ⟨false, StepSt.pending⟩, ⟨false, StepSt.pending⟩,
          ⟨false, StepSt.pending⟩⟩,
        template := [], completed_steps := 0, total_steps := 0,
        progress_percentage := 0, status := RStat.created }).total_steps ≠ 4 := by
  decide

/-- Claim C2, amended: after progress recomputation the stored
`total_steps` equals 5 (not 4); `completed_steps` equals a baseline of 1
plus 1 for each of the four tracked steps (ask_questions, plan, serp,
final_report) whose completed flag is true, except plan on a report with
a non-empty template id which adds 2 (`specCompletedSteps`, written from
the spec's words); and `progress_percentage` equals
`completed_steps / total_steps * 100` with that total of 5. -/
theorem c2_progress_recomputation (r : MongoReport) :
    (_update_overall_progress r).total_steps = 5 ∧
    (_update_overall_progress r).completed_steps = specCompletedSteps r ∧
    (_update_overall_progress r).progress_percentage
      = (specCompletedSteps r : ℚ) / 5 * 100 := by
  have hcount : (_update_overall_progress r).completed_steps = specCompletedSteps r := by
    unfold _update_overall_progress specCompletedSteps stepContribution
    simp only [List.foldl_cons, List.foldl_nil, Bool.and_false, Bool.and_true,
      Bool.false_eq_true, if_false]
    by_cases ht : r.template = [] <;>
      simp [ht, List.isEmpty_iff]
  refine ⟨rfl, hcount, ?_⟩
  have hperc : (_update_overall_progress r).progress_percentage
      = ((_update_overall_progress r).completed_steps : ℚ) / 5 * 100 := rfl
  rw [hperc, hcount]

/-! ## Claim C1 (result_index freshness) -/

/-- Claim C1, counterexample: the claim states that when
`_store_search_results` runs again for a task whose report already has
stored results with maximum index K, the new batch receives indices
strictly greater than K.  But the routine deletes the task's own rows
*before* reading the report maximum (lines 61 then 65-71), so when the
re-searched task itself holds the maximum the indices are reused.
Concretely: the report's rows are exactly task 1's rows with indices
0, 1, 2 (so K = 2); re-running task 1 with one raw result assigns it
index 0, which is not strictly greater than 2. -/
theorem c1_counterexample :
    maxResultIndex
        (([⟨1, 1, 1, [], 0, []⟩, ⟨1, 1, 1, [], 1, []⟩, ⟨1, 1, 1, [], 2, []⟩]
            : List SearchResultRow).filter (fun r => r.report_id = 1)) = some 2 ∧
    (((_store_search_results
          [⟨1, 1, 1, [], 0, []⟩, ⟨1, 1, 1, [], 1, []⟩, ⟨1, 1, 1, [], 2, []⟩]
          1 1 1 [] [['x']]).1.filter (fun r => r.task_id = 1)).map
        (fun r => r.result_index)) = [0] := by
  decide

/-- Claim C1, amended: the new batch's indices are strictly greater than
every `result_index` the report holds on *other* tasks (the rows that
survive the delete of the re-searched task's own rows); indices of the
deleted rows themselves may be reused, because the report maximum is read
only after the delete. -/
theorem c1_fresh_indices (db : List SearchResultRow)
    (task_id report_id plan_id : Nat) (query : List Char)
    (results : List (List Char)) :
    ∀ r ∈ db, r.task_id ≠ task_id → r.report_id = report_id →
      ∀ r2 ∈ (_store_search_results db task_id report_id plan_id query results).1,
        r2.task_id = task_id → r.result_index < r2.result_index := by
  intro r hr hrt hrr r2 hr2 hr2t
  unfold _store_search_results at hr2
  simp only [List.mem_append] at hr2
  rcases hr2 with hr2 | hr2
  · have := (List.mem_filter.mp hr2).2
    simp only [decide_eq_true_eq] at this
    exact absurd hr2t this
  · have hmem : r ∈ (db.filter (fun r => r.task_id ≠ task_id)).filter
        (fun r => r.report_id = report_id) := by
      refine List.mem_filter.mpr ⟨List.mem_filter.mpr ⟨hr, ?_⟩, ?_⟩ <;>
        simp [hrt, hrr]
    obtain ⟨m, hm, hle⟩ := le_maxResultIndex hmem
    rw [hm] at hr2
    have hstart := resultsRows_start_le _ _ _ _ _ _ _ hr2
    have hs2 : m + 1 ≤ r2.result_index := hstart
    omega

/-- Claim C1, witness: with one surviving row of another task (task 2,
index 5) the re-searched task 1's fresh row gets index 6 > 5. -/
theorem c1_witness :
    (⟨2, 1, 1, [], 5, []⟩ : SearchResultRow).result_index
      < (⟨1, 1, 1, [], 6, ['x']⟩ : SearchResultRow).result_index :=
  c1_fresh_indices [⟨2, 1, 1, [], 5, []⟩] 1 1 1 [] [['x']]
    ⟨2, 1, 1, [], 5, []⟩ (by decide) (by decide) (by decide)
    ⟨1, 1, 1, [], 6, ['x']⟩ (by decide) (by decide)

/-! ## Claim C3 (monotonicity of isFinalReportCompleted) -/

/-- Claim C3, counterexample: the claim states that no operation of the
system ever sets `isFinalReportCompleted` back to false.  But
`get_report_introduction` unconditionally resets it to false
(src/api/api_write_report_final.py lines 1306-1325): for a report whose
flag is true, invoking the introduction endpoint leaves it false. -/
theorem c3_counterexample :
    reportFlag (⟨[⟨7, true⟩], []⟩ : FinalDB) 7 = true ∧
    reportFlag (get_report_introduction_update ⟨[⟨7, true⟩], []⟩ 7) 7 = false := by
  decide

/-- Claim C3, amended: the flag is monotonic under the aggregator —
`check_and_update_final_report_completion` never sets it back to false
for any report — but it is not monotonic across the whole system, because
`get_report_introduction` resets it to false. -/
theorem c3_aggregator_monotonic (lockAcquired : Bool) (st : FinalDB)
    (report_id split_id x : Nat) (h : reportFlag st x = true) :
    reportFlag
      (check_and_update_final_report_completion lockAcquired st report_id split_id)
      x = true := by
  rcases check_result_cases lockAcquired st report_id split_id with heq | heq <;>
    rw [heq]
  · exact h
  · exact reportFlag_setTrue st report_id x h

/-- Claim C3, witness: the aggregator run on a report whose flag is
already true leaves it true. -/
theorem c3_witness :
    reportFlag
      (check_and_update_final_report_completion true
        ⟨[⟨5, true⟩], [⟨10, 5, some 2⟩]⟩ 5 10) 5 = true :=
  c3_aggregator_monotonic true ⟨[⟨5, true⟩], [⟨10, 5, some 2⟩]⟩ 5 10 5 rfl

/-! ## Claim C4 (aggregator idempotence) -/

/-- Claim C4: re-invoking `check_and_update_final_report_completion` for
a report whose `isFinalReportCompleted` is already true performs no write
at all (the state is returned unchanged — the fresh read of lines 141-144
detects the flag and skips), raises no error (the model is a total
function, matching the body-wide `try/except`), and in particular leaves
the flag true.  The hypothesis does not even need the split to be the
maximum-index one: every branch, including the non-final-chapter branch,
leaves the state untouched. -/
theorem c4_idempotent (st : FinalDB) (report_id split_id : Nat)
    (h : ∃ rep, findReport st report_id = some rep ∧
      rep.isFinalReportCompleted = true) :
    check_and_update_final_report_completion true st report_id split_id = st := by
  obtain ⟨rep, hrep, hflag⟩ := h
  unfold check_and_update_final_report_completion
  simp only [Bool.not_true, Bool.false_eq_true, if_false, hrep, hflag, if_true]
  split
  · rfl
  · split
    · rfl
    · split
      · rfl
      · split
        · rfl
        · split
          · rfl
          · rfl

/-- Claim C4, witness: Scenario E — chapter split 11 has the maximum
chapter index 2 of report 5, whose flag is already true; re-invoking the
aggregator returns the state unchanged. -/
theorem c4_witness :
    check_and_update_final_report_completion true
        ⟨[⟨5, true⟩], [⟨10, 5, some 1⟩, ⟨11, 5, some 2⟩]⟩ 5 11
      = ⟨[⟨5, true⟩], [⟨10, 5, some 1⟩, ⟨11, 5, some 2⟩]⟩ :=
  c4_idempotent ⟨[⟨5, true⟩], [⟨10, 5, some 1⟩, ⟨11, 5, some 2⟩]⟩ 5 11
    ⟨⟨5, true⟩, rfl, rfl⟩

/-! ## Claim C9 (lock contention is a soft failure) -/

/-- Claim C9: when the aggregator fails to acquire the report-scoped
distributed lock within the wait bound (`lock.acquire(blocking=True,
timeout=5)` returns false, modelled by `lockAcquired = false`), it
returns normally — the model is a total function and the source logs and
returns at line 104-105 — without modifying the report or any other
persisted state: the database state is returned exactly unchanged. -/
theorem c9_lock_contention_noop (st : FinalDB) (report_id split_id : Nat) :
    check_and_update_final_report_completion false st report_id split_id = st :=
  rfl

/-- Claim C10, witness: the asymmetry theorem evaluated at the concrete
two-chapter outline `"## Ch1\nintro\n## Ch2\nbody"`. -/
theorem c10_witness :
    containsSub delimL ("## Ch1\nintro\n## Ch2\nbody".toList) = true ∧
      (∃ c1 others rest,
        split_outline_by_chapters ("## Ch1\nintro\n## Ch2\nbody".toList)
          = c1 :: others ∧ others ≠ [] ∧
        (("## Ch1\nintro\n## Ch2\nbody".toList)
            = c1.content ++ delimL ++ rest ∧
          containsSub delimL c1.content = false) ∧
        (hashMark.isPrefixOf ("## Ch1\nintro\n## Ch2\nbody".toList) = true →
          hashMark.isPrefixOf c1.content = true) ∧
        ("## Ch1\nintro\n## Ch2\nbody".toList)
            = joinSep delimL ((c1 :: others).map (fun c => c.content)) ∧
        (∀ ch ∈ c1 :: others,
          ch.section_title = removeAll hashMark (firstLine ch.content))) :=
  ⟨by decide, c10_split_asymmetry _ (by decide)⟩

/-! ## Claim C6 (plan splitting replaces rather than appends) -/

theorem fold_upsert_no_one (report_id plan_id only_key : Nat) :
    ∀ (chs : List ChapterSplit), (∀ ch ∈ chs, ch.index ≠ 1) →
      ∀ (db : List PlanSplitRow),
        chs.foldl
          (fun acc ch =>
            upsert_plan_split_record acc report_id none plan_id ch.content only_key
              (some ch.index) ch.section_title)
          db
        = db ++ chs.map (planSplitRowOf report_id plan_id only_key) := by
  intro chs
  induction chs with
  | nil => intro _ db; simp
  | cons ch t ih =>
    intro h db
    have hne : ch.index ≠ 1 := h ch (List.mem_cons_self ch t)
    have ht : ∀ x ∈ t, x.index ≠ 1 := fun x hx => h x (List.mem_cons_of_mem ch hx)
    simp only [List.foldl_cons]
    rw [show upsert_plan_split_record db report_id none plan_id ch.content only_key
          (some ch.index) ch.section_title
        = db ++ [planSplitRowOf report_id plan_id only_key ch] from by
      unfold upsert_plan_split_record planSplitRowOf
      simp [hne]]
    rw [ih ht (db ++ [planSplitRowOf report_id plan_id only_key ch])]
    simp [List.map_cons, List.append_assoc]

theorem filter_report_of_filter_ne (db : List PlanSplitRow) (r : Nat) :
    (db.filter (fun row => row.report_id ≠ r)).filter
        (fun row => row.report_id = r) = [] := by
  rw [List.filter_filter]
  apply List.filter_eq_nil_iff.mpr
  intro row _
  by_cases h : row.report_id = r <;> simp [h]

theorem filter_ne_idem (db : List PlanSplitRow) (r : Nat) :
    (db.filter (fun row => row.report_id ≠ r)).filter
        (fun row => row.report_id ≠ r)
      = db.filter (fun row => row.report_id ≠ r) := by
  rw [List.filter_filter]
  apply List.filter_congr
  intro row _
  by_cases h : row.report_id = r <;> simp [h]

theorem split_plan_filter_eq (db : List PlanSplitRow) (r plan_id only_key : Nat)
    (c : List Char) :
    (split_plan db r plan_id only_key c).filter (fun row => row.report_id = r)
      = mkSplitRows r plan_id only_key c := by
  unfold split_plan mkSplitRows split_outline_by_chapters splitOnL
  cases hp : splitGo delimL c.length c with
  | nil => exact absurd hp (splitGo_ne_nil delimL c.length c)
  | cons hd tlp =>
    have hidx : ∀ x ∈ chaptersFrom 2 tlp, x.index ≠ 1 := by
      intro x hx
      have := chaptersFrom_index_ge 2 tlp x hx
      omega
    simp only [chaptersFrom, List.foldl_cons]
    rw [show upsert_plan_split_record (db.filter (fun row => row.report_id ≠ r)) r
          none plan_id (mkChapter 1 hd).content only_key (some (mkChapter 1 hd).index)
          (mkChapter 1 hd).section_title
        = db.filter (fun row => row.report_id ≠ r)
            ++ [planSplitRowOf r plan_id only_key (mkChapter 1 hd)] from by
      unfold upsert_plan_split_record planSplitRowOf mkChapter
      simp [filter_ne_idem]]
    rw [fold_upsert_no_one r plan_id only_key (chaptersFrom 2 tlp) hidx]
    rw [List.append_assoc, List.filter_append, filter_report_of_filter_ne]
    rw [List.nil_append]
    apply List.filter_eq_self.mpr
    intro row hrow
    rcases List.mem_append.mp hrow with h1 | h2
    · rw [List.mem_singleton.mp h1]
      simp [planSplitRowOf]
    · obtain ⟨x, _, rfl⟩ := List.mem_map.mp h2
      simp [planSplitRowOf]

/-- Claim C6: plan splitting replaces rather than appends — running
`split_plan` twice for the same report id leaves persisted exactly the
ChapterSplit rows produced by the second run (zero rows of the first run
remain; the second conjunct pins the surviving rows to the second run's
`only_key` batch key, and the first-run rows all carry the first run's
key).  Both the route-level `delete_records_by_report_id` and the
index-1 delete inside `upsert_plan_split_record` are modelled. -/
theorem c6_split_replace_not_append (db : List PlanSplitRow)
    (r pid1 k1 pid2 k2 : Nat) (c1 c2 : List Char) :
    (split_plan (split_plan db r pid1 k1 c1) r pid2 k2 c2).filter
        (fun row => row.report_id = r) = mkSplitRows r pid2 k2 c2 ∧
    (∀ row ∈ mkSplitRows r pid2 k2 c2, row.only_key = k2) ∧
    (∀ row ∈ mkSplitRows r pid1 k1 c1, row.only_key = k1) := by
  refine ⟨split_plan_filter_eq _ r pid2 k2 c2, ?_, ?_⟩ <;>
  · intro row hrow
    obtain ⟨x, _, rfl⟩ := List.mem_map.mp hrow
    rfl

/-! ## Claim C7 (SERP JSON extraction resilience) -/

/-- Claim C7: the SERP JSON-extraction routine, given
(a) a fenced ```json array, or (b) a bare bracket-delimited array
surrounded by prose, returns the parsed array of query objects; given
(c) unparsable content — with or without stray brackets — it returns an
empty list.  It raises no exception in any of these cases: the model is
a total function, matching the source's catch-all `except` branches
(lines 536-544) which convert every parse error into `[]`. -/
theorem c7_serp_json_extraction :
    extract_serp_queries_from_response
        ("```json\n[\x7b\"query\": \"q1\", \"researchGoal\": \"g1\"\x7d]\n```".toList)
      = JsonVal.arr [JsonVal.obj
          [("query".toList, JsonVal.str ("q1".toList)),
           ("researchGoal".toList, JsonVal.str ("g1".toList))]] ∧
    extract_serp_queries_from_response
        (("Here are the queries:\n[\x7b\"query\": \"q1\", \"researchGoal\": \"g1\"\x7d]"
          ++ "\nHope this helps.").toList)
      = JsonVal.arr [JsonVal.obj
          [("query".toList, JsonVal.str ("q1".toList)),
           ("researchGoal".toList, JsonVal.str ("g1".toList))]] ∧
    extract_serp_queries_from_response
        ("I cannot help with that request.".toList) = JsonVal.arr [] ∧
    extract_serp_queries_from_response
        ("garbled [not json at all] text".toList) = JsonVal.arr [] :=
  ⟨rfl, rfl, rfl, rfl⟩

/-! ## Claim C8 (failed searches always mark the task searchFailed) -/

theorem update_state_sets (db : SearchServiceDB) (task_id : Nat) (s : SearchState) :
    ∀ t ∈ (update_serp_task_search_state db task_id s).serp_task,
      t.id = task_id → t.search_state = s := by
  intro t ht hid
  unfold update_serp_task_search_state at ht
  simp only [List.mem_map] at ht
  obtain ⟨t0, _, rfl⟩ := ht
  by_cases h0 : t0.id = task_id
  · simp [h0]
  · simp [h0] at hid

/-- Claim C8: on every failing execution of the `search` endpoint —
whether the task lookup fails before the search call or the search call
itself raises — the endpoint's except-branches update the task's
`search_state` to `searchFailed` before the `HTTPException` is
propagated: whenever the returned flag reports failure, every `serp_task`
row with the requested task id ends in state `searchFailed`.  The failure
is never reported with the state left unchanged. -/
theorem c8_failure_sets_searchFailed (db : SearchServiceDB) (task_id : Nat)
    (query : List Char) (tavilyOutcome : Option (List (List Char)))
    (hfail : (search db task_id query tavilyOutcome).2 = false) :
    ∀ t ∈ (search db task_id query tavilyOutcome).1.serp_task,
      t.id = task_id → t.search_state = SearchState.searchFailed := by
  intro t ht hid
  unfold search at hfail ht
  cases hget : get_task_info db task_id with
  | none =>
    rw [hget] at ht
    exact update_state_sets db task_id SearchState.searchFailed t ht hid
  | some info =>
    rw [hget] at hfail ht
    cases tavilyOutcome with
    | none =>
      exact update_state_sets db task_id SearchState.searchFailed t ht hid
    | some results => exact Bool.noConfusion hfail

/-- Claim C8, witness: a failing execution (the external search call
raises) on a database holding task 3 in state `unprocessed` leaves that
task in state `searchFailed`. -/
theorem c8_witness :
    (⟨3, 9, 9, SearchState.searchFailed⟩ : SerpTaskRow).search_state
      = SearchState.searchFailed :=
  c8_failure_sets_searchFailed
    ⟨[⟨3, 9, 9, SearchState.unprocessed⟩], []⟩ 3 [] none rfl
    ⟨3, 9, 9, SearchState.searchFailed⟩ (by decide) rfl

end FYPDev
